import Mathlib

/-!
Verification of the order-execution and realtime-stream core of the
polymarket-apis client (`clob_client.py`, `websockets_client.py`,
`gamma_client.py`).

Shallow embedding conventions:
* Python floats carrying prices/sizes/amounts are modelled as rationals `ℚ`.
* Python `int` is `ℤ`; `None`-able values are `Option`.
* A Python function that can `raise` is `Except` valued; `Except.error`
  models an exception propagating to the caller.
* Network I/O is made explicit: HTTP calls take the transport's outcome as
  an argument, websocket code returns the list of network actions it
  performed, and the offset pager takes the server's item list.

Helper modules `utilities/order_builder/*` (the `price_valid`,
`is_tick_size_smaller` helpers and the market-price walk of `OrderBuilder`)
are not part of the provided sources; those definitions are modelled from
the spec and are marked as such in their doc comments.
-/

namespace Polymarket

/-- The three tick sizes of the CLOB API (`TickSize = Literal["0.1","0.01","0.001"]`). -/
inductive TickSize where
  | tenth
  | hundredth
  | thousandth
deriving DecidableEq, Repr

/-- Numeric value of a tick size. -/
def TickSize.toRat : TickSize → ℚ
  | .tenth => 1 / 10
  | .hundredth => 1 / 100
  | .thousandth => 1 / 1000

/-- The exception taxonomy of `utilities/exceptions` as raised by the clob and
websocket clients (`InvalidTickSizeError`, `InvalidPriceError`,
`InvalidFeeRateError`, `LiquidityError`, `MissingOrderbookError`,
`AuthenticationRequiredError`, plus Python's `ValueError` for a bad side). -/
inductive ClobError where
  | invalidTickSize
  | invalidPrice
  | invalidFeeRate
  | liquidity
  | missingOrderbook
  | authRequired
  | badSide
deriving DecidableEq, Repr

/-- Modelled from the spec: `is_tick_size_smaller` lives in
`utilities/order_builder/helpers`, which is not among the provided sources.
The spec reads "a caller-requested tick size ... smaller (finer) than the
market minimum", so tick sizes compare by numeric value. -/
def is_tick_size_smaller (a b : TickSize) : Bool :=
  decide (a.toRat < b.toRat)

/-- Modelled from the spec: `price_valid` lives in
`utilities/order_builder/helpers`, which is not among the provided sources.
The spec reads "`priceValid(p,t)` holds iff `p mod t == 0` and
`t ≤ p ≤ 1-t`"; `p mod t == 0` means `p` is an integer multiple of `t`,
decided here by the denominator of `p / t`. -/
def price_valid (p : ℚ) (t : TickSize) : Bool :=
  (p / t.toRat).den == 1 && decide (t.toRat ≤ p) && decide (p ≤ 1 - t.toRat)

/-- `PolymarketClobClient.__resolve_tick_size`, with the cached market minimum
for the token passed explicitly: a requested tick size smaller than the market
minimum raises `InvalidTickSizeError`; no requested tick size defaults to the
market minimum. -/
def resolve_tick_size (minTickSize : TickSize) (requested : Option TickSize) :
    Except ClobError TickSize :=
  match requested with
  | some t =>
      if is_tick_size_smaller t minTickSize then .error .invalidTickSize
      else .ok t
  | none => .ok minTickSize

/-- `PolymarketClobClient.__resolve_fee_rate`, with the cached market fee rate
for the token passed explicitly: raises `InvalidFeeRateError` when the market
rate is positive, the caller's rate is present and positive, and the two
differ; otherwise returns the market rate. -/
def resolve_fee_rate (marketFeeRateBps : ℤ) (userFeeRate : Option ℤ) :
    Except ClobError ℤ :=
  match userFeeRate with
  | some u =>
      if marketFeeRateBps > 0 && u > 0 && u != marketFeeRateBps then
        .error .invalidFeeRate
      else .ok marketFeeRateBps
  | none => .ok marketFeeRateBps

/-- Per-token metadata as held by the client's local caches (`__tick_sizes`,
`__neg_risk`, `__fee_rates`), resolved once per token. -/
structure MarketMeta where
  minTickSize : TickSize
  negRisk : Bool
  feeRateBps : ℤ
deriving DecidableEq, Repr

/-- `PartialCreateOrderOptions`: optional caller overrides. -/
structure PartialCreateOrderOptions where
  tickSize : Option TickSize := none
  negRisk : Option Bool := none
deriving DecidableEq, Repr

/-- The requested tick size carried by an optional options argument
(`options.tick_size if options else None`). -/
def optionsTickSize (options : Option PartialCreateOrderOptions) : Option TickSize :=
  match options with
  | some o => o.tickSize
  | none => none

/-- The neg-risk flag: the override when present, else the cached market flag
(`options.neg_risk if options and options.neg_risk is not None else get_neg_risk(...)`). -/
def optionsNegRisk (options : Option PartialCreateOrderOptions) (marketNegRisk : Bool) : Bool :=
  match options with
  | some o =>
      match o.negRisk with
      | some b => b
      | none => marketNegRisk
  | none => marketNegRisk

/-- `OrderArgs` for a limit order. -/
structure OrderArgs where
  side : String
  price : ℚ
  size : ℚ
  feeRateBps : Option ℤ := none
deriving DecidableEq, Repr

/-- The fully resolved parameters `create_order` hands to the external signer
(`builder.create_order(order_args, CreateOrderOptions(tick_size, neg_risk))`). -/
structure ResolvedOrder where
  side : String
  price : ℚ
  size : ℚ
  feeRateBps : ℤ
  tickSize : TickSize
  negRisk : Bool
deriving DecidableEq, Repr

/-- `PolymarketClobClient.create_order` (and its async twin `acreate_order`,
which runs the identical logic): resolve the tick size, validate the price,
resolve the neg-risk flag, resolve the fee rate, then delegate to the signer;
the signer itself is external, so the value returned is the resolved
parameter set it receives. -/
def create_order (meta : MarketMeta) (args : OrderArgs)
    (options : Option PartialCreateOrderOptions) : Except ClobError ResolvedOrder :=
  match resolve_tick_size meta.minTickSize (optionsTickSize options) with
  | .error e => .error e
  | .ok tickSize =>
      if !price_valid args.price tickSize then .error .invalidPrice
      else
        match resolve_fee_rate meta.feeRateBps args.feeRateBps with
        | .error e => .error e
        | .ok feeRateBps =>
            .ok { side := args.side, price := args.price, size := args.size,
                  feeRateBps := feeRateBps, tickSize := tickSize,
                  negRisk := optionsNegRisk options meta.negRisk }

/-- One price level of an order-book snapshot. -/
structure OrderLevel where
  price : ℚ
  size : ℚ
deriving DecidableEq, Repr

/-- `OrderBookSummary` as used by `calculate_market_price`: the bid and ask
sides, either of which may be absent. -/
structure OrderBookSummaryM where
  bids : Option (List OrderLevel)
  asks : Option (List OrderLevel)
deriving DecidableEq, Repr

/-- `OrderType` (`GTC`, `GTD`, `FOK`, `FAK`). -/
inductive OrderType where
  | GTC
  | GTD
  | FOK
  | FAK
deriving DecidableEq, Repr

/-- Total size resting on a list of levels. -/
def sumSizes : List OrderLevel → ℚ
  | [] => 0
  | l :: ls => l.size + sumSizes ls

/-- Insert a level into a list sorted by ascending price. -/
def insertLevelAsc (l : OrderLevel) : List OrderLevel → List OrderLevel
  | [] => [l]
  | x :: xs => if l.price ≤ x.price then l :: x :: xs else x :: insertLevelAsc l xs

/-- Sort levels by ascending price (insertion sort). -/
def sortLevelsAsc : List OrderLevel → List OrderLevel
  | [] => []
  | x :: xs => insertLevelAsc x (sortLevelsAsc xs)

/-- Insert a level into a list sorted by descending price. -/
def insertLevelDesc (l : OrderLevel) : List OrderLevel → List OrderLevel
  | [] => [l]
  | x :: xs => if x.price ≤ l.price then l :: x :: xs else x :: insertLevelDesc l xs

/-- Sort levels by descending price (insertion sort). -/
def sortLevelsDesc : List OrderLevel → List OrderLevel
  | [] => []
  | x :: xs => insertLevelDesc x (sortLevelsDesc xs)

/-- Walk price levels accumulating size; return the price of the first level
at which the running total reaches `amount`, `none` when it never does. -/
def walk_levels (amount : ℚ) (acc : ℚ) : List OrderLevel → Option ℚ
  | [] => none
  | l :: ls =>
      let acc2 := acc + l.size
      if amount ≤ acc2 then some l.price else walk_levels amount acc2 ls

/-- Modelled from the spec: `OrderBuilder.calculate_buy_market_price` lives in
`utilities/order_builder/builder`, which is not among the provided sources.
The spec reads "walk price levels in favorable-to-the-taker order (ascending
for asks ...), accumulating level size until the cumulative size meets or
exceeds the requested amount; the result is the price of the last level
needed ... If the accumulated size never reaches the amount, fail" (with
`InsufficientLiquidity`, the `LiquidityError` of the code); the order type
does not affect this computation. -/
def calculate_buy_market_price (asks : List OrderLevel) (amount : ℚ)
    (_orderType : OrderType) : Except ClobError ℚ :=
  match walk_levels amount 0 (sortLevelsAsc asks) with
  | some p => .ok p
  | none => .error .liquidity

/-- Modelled from the spec: `OrderBuilder.calculate_sell_market_price`, as for
the buy side but walking bids in descending price order. -/
def calculate_sell_market_price (bids : List OrderLevel) (amount : ℚ)
    (_orderType : OrderType) : Except ClobError ℚ :=
  match walk_levels amount 0 (sortLevelsDesc bids) with
  | some p => .ok p
  | none => .error .liquidity

/-- `PolymarketClobClient.calculate_market_price` (and async twin), with the
fetched order-book snapshot passed explicitly: a missing book raises
`MissingOrderbookError`; a missing relevant side raises `LiquidityError`;
otherwise the walk on the relevant side decides; a side other than `"BUY"` or
`"SELL"` raises `ValueError`. -/
def calculate_market_price (book : Option OrderBookSummaryM) (side : String)
    (amount : ℚ) (orderType : OrderType) : Except ClobError ℚ :=
  match book with
  | none => .error .missingOrderbook
  | some b =>
      if side = "BUY" then
        match b.asks with
        | none => .error .liquidity
        | some asks => calculate_buy_market_price asks amount orderType
      else if side = "SELL" then
        match b.bids with
        | none => .error .liquidity
        | some bids => calculate_sell_market_price bids amount orderType
      else .error .badSide

/-- `MarketOrderArgs`: a market order intent; `price` may be absent or
non-positive, in which case it is derived from the book. -/
structure MarketOrderArgs where
  side : String
  amount : ℚ
  price : Option ℚ := none
  feeRateBps : Option ℤ := none
  orderType : OrderType := .FOK
deriving DecidableEq, Repr

/-- `order_args.price is None or order_args.price <= 0`: the market order has
no explicit positive price, so one must be derived from the book. -/
def marketPriceNeeded (price : Option ℚ) : Bool :=
  match price with
  | none => true
  | some p => decide (p ≤ 0)

/-- The steps `create_market_order` runs, in their fixed program order. -/
inductive BuildStep where
  | resolveTick
  | derivePrice
  | validatePrice
  | resolveNegRisk
  | resolveFee
  | sign
deriving DecidableEq, Repr

/-- The full step sequence of `create_market_order` for a given intent: the
price-derivation step appears only for market orders with no explicit
positive price. -/
def fullBuildTrace (price : Option ℚ) : List BuildStep :=
  [.resolveTick]
    ++ (if marketPriceNeeded price then [.derivePrice] else [])
    ++ [.validatePrice, .resolveNegRisk, .resolveFee, .sign]

/-- `PolymarketClobClient.create_market_order` (and async twin), with the
cached metadata and the order-book snapshot passed explicitly. Returns the
outcome together with the list of steps that actually ran, in order: resolve
tick size → (derive price from the book when no explicit positive price) →
validate price → resolve neg-risk → resolve fee rate → delegate to the
signer; a raise at any step ends the trace there. -/
def create_market_order (meta : MarketMeta) (book : Option OrderBookSummaryM)
    (args : MarketOrderArgs) (options : Option PartialCreateOrderOptions) :
    Except ClobError ResolvedOrder × List BuildStep :=
  match resolve_tick_size meta.minTickSize (optionsTickSize options) with
  | .error e => (.error e, [.resolveTick])
  | .ok tickSize =>
      let needsDerive := marketPriceNeeded args.price
      let priceStep : Except ClobError ℚ :=
        if needsDerive then
          calculate_market_price book args.side args.amount args.orderType
        else .ok (args.price.getD 0)
      let steps1 : List BuildStep :=
        [.resolveTick] ++ (if needsDerive then [.derivePrice] else [])
      match priceStep with
      | .error e => (.error e, steps1)
      | .ok price =>
          if !price_valid price tickSize then
            (.error .invalidPrice, steps1 ++ [.validatePrice])
          else
            match resolve_fee_rate meta.feeRateBps args.feeRateBps with
            | .error e =>
                (.error e, steps1 ++ [.validatePrice, .resolveNegRisk, .resolveFee])
            | .ok feeRateBps =>
                (.ok { side := args.side, price := price, size := args.amount,
                       feeRateBps := feeRateBps, tickSize := tickSize,
                       negRisk := optionsNegRisk options meta.negRisk },
                 steps1 ++ [.validatePrice, .resolveNegRisk, .resolveFee, .sign])

/-- Outcome of one HTTP round trip, made explicit: a 2xx response whose JSON
body parsed to `α`, an error-status response (on which `raise_for_status`
raises `httpx.HTTPStatusError`), or a transport-level exception from the call
itself (`httpx.ConnectError`, timeout, ...), which is not an
`HTTPStatusError`. -/
inductive TransportOutcome (α : Type) where
  | success (body : α)
  | statusError (status : ℕ)
  | transportFailure
deriving DecidableEq, Repr

/-- A Python exception escaping to the caller of a submission method. -/
inductive PyError where
  | httpStatusError (status : ℕ)
  | transportFailure
deriving DecidableEq, Repr

/-- A diagnostic emitted while posting orders (`logger.warning` / `print`). -/
inductive LogEntry where
  | clientError (status : ℕ)
  | orderIndexError (index : ℕ) (msg : String)
deriving DecidableEq, Repr

/-- `OrderPostResponse` as parsed from the exchange's acknowledgment. -/
structure OrderPostResponseM where
  success : Bool
  errorMsg : Option String := none
deriving DecidableEq, Repr

/-- One entry of a batch submission (`PostOrdersArgs`): an already-signed
order (identified abstractly) plus its order type. -/
structure PostOrdersArgsM where
  orderId : ℕ
  orderType : OrderType
deriving DecidableEq, Repr

/-- `PolymarketClobClient.post_order` (and async twin), with the transport
outcome passed explicitly. The value is (what the call evaluates to, the
diagnostics logged): a 2xx response parses into the acknowledgment; an
error-status response is caught (`except httpx.HTTPStatusError`), logged and
turned into `None`; any other transport exception is not caught and
propagates. -/
def post_order (outcome : TransportOutcome OrderPostResponseM) :
    Except PyError (Option OrderPostResponseM) × List LogEntry :=
  match outcome with
  | .success r => (.ok (some r), [])
  | .statusError s => (.ok none, [.clientError s])
  | .transportFailure => (.error .transportFailure, [])

/-- The per-index warnings `post_orders` logs while walking a successful batch
response: one `orderIndexError` per outcome carrying an `error_msg`. -/
def batchWarnings (start : ℕ) : List OrderPostResponseM → List LogEntry
  | [] => []
  | r :: rs =>
      (match r.errorMsg with
       | some m => [.orderIndexError start m]
       | none => []) ++ batchWarnings (start + 1) rs

/-- `PolymarketClobClient.post_orders` (and async twin), with the transport
outcome passed explicitly; `args` is the submitted batch. On a 2xx response
the response array is walked start to end, each outcome appended to the
result and each outcome carrying an error message logged; on an error-status
response the whole call is caught, logged and turned into `None`; any other
transport exception propagates. -/
def post_orders (_args : List PostOrdersArgsM)
    (outcome : TransportOutcome (List OrderPostResponseM)) :
    Except PyError (Option (List OrderPostResponseM)) × List LogEntry :=
  match outcome with
  | .success items => (.ok (some items), batchWarnings 0 items)
  | .statusError s => (.ok none, [.clientError s])
  | .transportFailure => (.error .transportFailure, [])

/-- An action observable from outside `create_and_post_market_order`: one of
the build steps, or the network submission of the built order. -/
inductive OrderAction where
  | build (step : BuildStep)
  | postOrder
deriving DecidableEq, Repr

/-- `PolymarketClobClient.create_and_post_market_order`: build + submit with
no additional behavior; an exception from `create_market_order` propagates
before `post_order` runs. Returns the outcome together with the actions
performed, in order. -/
def create_and_post_market_order (meta : MarketMeta)
    (book : Option OrderBookSummaryM) (args : MarketOrderArgs)
    (options : Option PartialCreateOrderOptions)
    (outcome : TransportOutcome OrderPostResponseM) :
    Except ClobError (Except PyError (Option OrderPostResponseM)) × List OrderAction :=
  match create_market_order meta book args options with
  | (.error e, steps) => (.error e, steps.map .build)
  | (.ok _, steps) => (.ok (post_order outcome).1, steps.map .build ++ [.postOrder])

/-- `ApiCreds`: the API key, secret and passphrase. -/
structure ApiCredsM where
  key : String
  secret : String
  passphrase : String
deriving DecidableEq, Repr

/-- One live-data subscription entry (`{"topic": ..., ...}`): its topic, its
other keys held abstractly, and the `clob_auth` key when injected. -/
structure SubscriptionM where
  topic : String
  fields : List (String × String) := []
  clobAuth : Option ApiCredsM := none
deriving DecidableEq, Repr

/-- Credential injection into one subscription entry: entries whose topic is
`"clob_user"` get `clob_auth` set to the credentials (a copy, the entry's
other keys unchanged); every other entry is passed through as is. -/
def inject_creds (creds : ApiCredsM) (sub : SubscriptionM) : SubscriptionM :=
  if sub.topic = "clob_user" then { sub with clobAuth := some creds } else sub

/-- `any(sub.get("topic") == "clob_user" for sub in subscriptions)`. -/
def needs_auth (subs : List SubscriptionM) : Bool :=
  subs.any fun s => s.topic == "clob_user"

/-- A network action of a websocket channel, in the order performed. -/
inductive NetAction where
  | connect
  | sendSubscribe (subs : List SubscriptionM)
deriving DecidableEq, Repr

/-- `PolymarketWebsocketsClient.live_data_socket` (sync, lomond) up to and
including its subscribe handshake: `persist(websocket)` first establishes the
connection; on the `ready` event, if an entry needs auth and no credentials
were supplied, `AuthenticationRequiredError` is raised (after the connect,
before any send); otherwise credentials are injected into the `clob_user`
entries and the subscribe payload is sent. Returns (network actions in
order, the error raised, if any). -/
def live_data_socket (subs : List SubscriptionM) (creds : Option ApiCredsM) :
    List NetAction × Option ClobError :=
  if needs_auth subs then
    match creds with
    | none => ([.connect], some .authRequired)
    | some c => ([.connect, .sendSubscribe (subs.map (inject_creds c))], none)
  else ([.connect, .sendSubscribe subs], none)

/-- `PolymarketWebsocketsClient.alive_data_stream` (async, websockets) up to
and including its subscribe handshake: the credentials check and the
injection run before `websockets.connect`, so a missing-credentials failure
precedes any network action. -/
def alive_data_stream (subs : List SubscriptionM) (creds : Option ApiCredsM) :
    List NetAction × Option ClobError :=
  if needs_auth subs then
    match creds with
    | none => ([], some .authRequired)
    | some c => ([.connect, .sendSubscribe (subs.map (inject_creds c))], none)
  else ([.connect, .sendSubscribe subs], none)

/-- A JSON value as `json.loads` produces it. -/
inductive JsonV where
  | str (s : String)
  | num (q : ℚ)
  | boolean (b : Bool)
  | null
  | arr (elems : List JsonV)
  | obj (fields : List (String × JsonV))
deriving Repr

/-- Field lookup in a JSON object's field list (`dict.get`). -/
def lookupField (k : String) : List (String × JsonV) → Option JsonV
  | [] => none
  | (k', v) :: rest => if k' = k then some v else lookupField k rest

/-- `message.get(key)` on a parsed JSON message. -/
def jsonGet (j : JsonV) (k : String) : Option JsonV :=
  match j with
  | .obj fields => lookupField k fields
  | _ => none

/-- A typed market-channel event as dispatched by `parse_market_event`; the
payload is kept whole, and unrecognized discriminants pass the raw message
through. -/
inductive MarketEvent where
  | book (payload : JsonV)
  | priceChange (payload : JsonV)
  | tickSizeChange (payload : JsonV)
  | lastTradePrice (payload : JsonV)
  | passthrough (payload : JsonV)
deriving Repr

/-- `parse_market_event`: dispatch on the `event_type` discriminant. -/
def parse_market_event (message : JsonV) : MarketEvent :=
  match jsonGet message "event_type" with
  | some (.str "book") => .book message
  | some (.str "price_change") => .priceChange message
  | some (.str "tick_size_change") => .tickSizeChange message
  | some (.str "last_trade_price") => .lastTradePrice message
  | _ => .passthrough message

/-- One value yielded by the async market stream: a typed event (parse on), an
untyped JSON value (parse off), or the raw-text wrapper `{"raw": message}`
for a frame that is not valid JSON. -/
inductive StreamYield where
  | typed (e : MarketEvent)
  | untyped (j : JsonV)
  | raw (text : String)
deriving Repr

/-- One inbound websocket frame: its text, and the result of `json.loads` on
it (`none` models `json.JSONDecodeError`). -/
structure WsFrame where
  text : String
  parsed : Option JsonV
deriving Repr

/-- The values `amarket_stream` yields for one inbound frame: an invalid-JSON
frame yields the raw wrapper; a JSON array yields one value per element, each
dispatched individually; any other JSON value yields a single value. -/
def amarket_frame_events (f : WsFrame) (parse : Bool) : List StreamYield :=
  match f.parsed with
  | none => [.raw f.text]
  | some (.arr elems) =>
      elems.map fun item =>
        if parse then .typed (parse_market_event item) else .untyped item
  | some j => [if parse then .typed (parse_market_event j) else .untyped j]

/-- The page `GET /events` returns for an honest offset/limit server holding
`items`: `limit` items starting at `offset` (`get_events` forwards `limit`
and `offset` as query parameters and returns the response array). -/
def eventsPage (items : List α) (limit offset : ℕ) : List α :=
  (items.drop offset).take limit

/-- The `get_all_events` loop (`gamma_client.py`): starting at offset 0,
fetch a page, append it, stop when the page has fewer than 500 items
(the hardcoded constant, regardless of the forwarded `limit`), else advance
the offset by 500. Structural recursion is on explicit fuel; `fuel = 0`
returns what has been accumulated so far. -/
def get_all_events_go (items : List α) (limit : ℕ) : ℕ → ℕ → List α
  | 0, _ => []
  | fuel + 1, offset =>
      let part := eventsPage items limit offset
      if part.length < 500 then part
      else part ++ get_all_events_go items limit fuel (offset + 500)

/-- `PolymarketGammaClient.get_all_events` (and async twin) against an honest
offset/limit server holding `items`, with the `limit` query parameter the
caller's kwargs carry (500 when left to `get_events`'s default). The fuel
`items.length + 1` never runs out: each continuing iteration consumes a page
of at least 500 items. -/
def get_all_events (items : List α) (limit : ℕ) : List α :=
  get_all_events_go items limit (items.length + 1) 0

/-- The (offset, page) pairs the `get_all_events` loop requests, in order. -/
def fetch_pages (items : List α) (limit : ℕ) : ℕ → ℕ → List (ℕ × List α)
  | 0, _ => []
  | fuel + 1, offset =>
      let part := eventsPage items limit offset
      if part.length < 500 then [(offset, part)]
      else (offset, part) :: fetch_pages items limit fuel (offset + 500)

/-- A `clob_user` subscription entry used as a concrete input. -/
def exClobUserSub : SubscriptionM :=
  { topic := "clob_user", fields := [("type", "orders")] }

/-- An `activity` subscription entry used as a concrete input. -/
def exActivitySub : SubscriptionM :=
  { topic := "activity", fields := [("event_slug", "example")] }

/-- Concrete credentials used as a concrete input. -/
def exCreds : ApiCredsM :=
  { key := "k", secret := "s", passphrase := "p" }

/-- The ask side of the spec's market-price example:
`[(0.40, size=10), (0.41, size=20)]`. -/
def exAsks : List OrderLevel :=
  [{ price := 2 / 5, size := 10 }, { price := 41 / 100, size := 20 }]

/-- The order-book snapshot of the spec's market-price example. -/
def exBook : OrderBookSummaryM :=
  { bids := some [], asks := some exAsks }

/-- A concrete batch of three submitted orders. -/
def exBatchArgs : List PostOrdersArgsM :=
  [{ orderId := 0, orderType := .GTC }, { orderId := 1, orderType := .GTC },
   { orderId := 2, orderType := .GTC }]

/-- A concrete batch response in which the order at index 1 was rejected
server-side and indices 0 and 2 succeeded. -/
def exBatchItems : List OrderPostResponseM :=
  [{ success := true }, { success := false, errorMsg := some "bad price" },
   { success := true }]

/-- A concrete `book` market message. -/
def exBookMsg : JsonV :=
  .obj [("event_type", .str "book"), ("market", .str "m1")]

/-- A concrete `price_change` market message. -/
def exPriceMsg : JsonV :=
  .obj [("event_type", .str "price_change"), ("market", .str "m1")]

/-- A concrete market-channel frame whose JSON payload is a two-element
array. -/
def exArrFrame : WsFrame :=
  { text := "frame", parsed := some (.arr [exBookMsg, exPriceMsg]) }

/-- A concrete frame that is not valid JSON. -/
def exBadFrame : WsFrame :=
  { text := "not json", parsed := none }

/-! ### Supporting lemmas -/

theorem TickSize.toRat_ne_zero (t : TickSize) : t.toRat ≠ 0 := by
  cases t <;> simp [TickSize.toRat]

theorem TickSize.toRat_pos (t : TickSize) : 0 < t.toRat := by
  cases t <;> norm_num [TickSize.toRat]

theorem den_div_eq_one_iff (p t : ℚ) (ht : t ≠ 0) :
    (p / t).den = 1 ↔ ∃ k : ℤ, p = k * t := by
  rw [Rat.den_eq_one_iff]
  constructor
  · intro h
    exact ⟨(p / t).num, by rw [h, div_mul_cancel₀ p ht]⟩
  · rintro ⟨k, rfl⟩
    rw [mul_div_cancel_right₀ _ ht]
    simp

theorem price_valid_iff (p : ℚ) (t : TickSize) :
    price_valid p t = true ↔
      (∃ k : ℤ, p = k * t.toRat) ∧ t.toRat ≤ p ∧ p ≤ 1 - t.toRat := by
  unfold price_valid
  rw [Bool.and_eq_true, Bool.and_eq_true, beq_iff_eq, decide_eq_true_eq,
    decide_eq_true_eq, den_div_eq_one_iff p t.toRat (TickSize.toRat_ne_zero t),
    and_assoc]

theorem resolve_fee_rate_error_eq (m : ℤ) (u : Option ℤ) (e : ClobError)
    (h : resolve_fee_rate m u = .error e) : e = .invalidFeeRate := by
  cases u with
  | none => simp [resolve_fee_rate] at h
  | some v =>
      simp only [resolve_fee_rate] at h
      split at h
      · cases h
        rfl
      · cases h

/-! ### Claim theorems: metadata resolution -/

/-- Claim C4: tick-size resolution returns the requested tick size when it is
not smaller than the market minimum, returns the market minimum when none is
requested, and fails with `InvalidTickSize` when the requested tick size is
smaller than the market minimum. -/
theorem resolve_tick_size_characterization (minT t : TickSize) :
    resolve_tick_size minT none = .ok minT ∧
      resolve_tick_size minT (some t) =
        (if t.toRat < minT.toRat then .error .invalidTickSize else .ok t) := by
  refine ⟨rfl, ?_⟩
  unfold resolve_tick_size is_tick_size_smaller
  by_cases h : t.toRat < minT.toRat <;> simp [h]

/-- Witness for C4 at the concrete input `minT = 0.01`, `t = 0.1`. -/
theorem resolve_tick_size_characterization_witness :
    resolve_tick_size .hundredth none = .ok .hundredth ∧
      resolve_tick_size .hundredth (some .tenth) =
        (if TickSize.tenth.toRat < TickSize.hundredth.toRat then
          .error .invalidTickSize
        else .ok .tenth) :=
  resolve_tick_size_characterization .hundredth .tenth

/-- Claim C3 counterexample: the claim says `InvalidFeeRate` is raised
whenever the market rate is nonzero, the caller's rate is nonzero and the two
differ; for a market rate of 50 and a caller rate of `-30` (nonzero and
different from 50) the code raises nothing and returns 50, because its guard
tests `user_fee_rate > 0`, not `!= 0`. -/
theorem resolve_fee_rate_counterexample :
    (50 : ℤ) ≠ 0 ∧ (-30 : ℤ) ≠ 0 ∧ (-30 : ℤ) ≠ (50 : ℤ) ∧
      resolve_fee_rate 50 (some (-30)) = .ok 50 :=
  ⟨by decide, by decide, by decide, rfl⟩

/-- Claim C3 (amended: "nonzero" is "positive"): fee-rate resolution returns
the market's fee rate, and raises `InvalidFeeRate` exactly when the market
rate is positive, the caller supplied a positive rate, and the two differ; a
caller rate that is absent, non-positive or equal to the market rate is
ignored. -/
theorem resolve_fee_rate_characterization (m u : ℤ) :
    resolve_fee_rate m none = .ok m ∧
      resolve_fee_rate m (some u) =
        (if 0 < m ∧ 0 < u ∧ u ≠ m then .error .invalidFeeRate else .ok m) := by
  refine ⟨rfl, ?_⟩
  unfold resolve_fee_rate
  by_cases h1 : 0 < m <;> by_cases h2 : 0 < u <;> by_cases h3 : u = m <;>
    simp [h1, h2, h3]

/-- Witness for C3's amended theorem at the market rate 50 and caller rate 30
of the spec's example (50 and 30 are positive and differ, so `InvalidFeeRate`
is raised). -/
theorem resolve_fee_rate_characterization_witness :
    resolve_fee_rate 50 none = .ok 50 ∧
      resolve_fee_rate 50 (some 30) =
        (if 0 < (50 : ℤ) ∧ 0 < (30 : ℤ) ∧ (30 : ℤ) ≠ 50 then
          .error .invalidFeeRate
        else .ok 50) :=
  resolve_fee_rate_characterization 50 30

/-- Claim C1: for every tick size `t` (the type has exactly 0.1, 0.01, 0.001)
and every price, once tick-size resolution has produced `t` for the token,
order creation raises `InvalidPrice` — and builds no order — exactly when the
price is not an integer multiple of `t` lying within
`t ≤ price ≤ 1 - t`. -/
theorem create_order_price_validation (meta : MarketMeta) (args : OrderArgs)
    (options : Option PartialCreateOrderOptions) (t : TickSize)
    (ht : resolve_tick_size meta.minTickSize (optionsTickSize options) = .ok t) :
    create_order meta args options = .error .invalidPrice ↔
      ¬((∃ k : ℤ, args.price = k * t.toRat) ∧
        t.toRat ≤ args.price ∧ args.price ≤ 1 - t.toRat) := by
  rw [← price_valid_iff]
  unfold create_order
  split
  · next e heq =>
      rw [ht] at heq
      cases heq
  · next tickSize heq =>
      rw [ht] at heq
      injection heq with h
      subst h
      by_cases hp : price_valid args.price t = true
      · rw [hp]
        simp only [Bool.not_true, Bool.false_eq_true, if_false, not_true_eq_false,
          iff_false]
        split
        · next e heq2 =>
            intro hcontra
            injection hcontra with h2
            rw [resolve_fee_rate_error_eq _ _ _ heq2] at h2
            cases h2
        · next r heq2 =>
            intro hcontra
            cases hcontra
      · rw [Bool.not_eq_true] at hp
        rw [hp]
        simp only [Bool.not_false, if_true, hp, Bool.false_eq_true,
          not_false_eq_true, iff_true]

/-- Witness for C1 at the concrete input: market minimum 0.01, no options,
price 0.005 (the spec's own invalid example: below the minimum tick). -/
theorem create_order_price_validation_witness :
    create_order { minTickSize := .hundredth, negRisk := false, feeRateBps := 0 }
        { side := "BUY", price := 1 / 200, size := 10 } none =
        .error .invalidPrice ↔
      ¬((∃ k : ℤ, (({ side := "BUY", price := 1 / 200, size := 10 } : OrderArgs)).price
            = k * TickSize.hundredth.toRat) ∧
        TickSize.hundredth.toRat ≤ (1 / 200 : ℚ) ∧ (1 / 200 : ℚ) ≤ 1 - TickSize.hundredth.toRat) :=
  create_order_price_validation
    { minTickSize := .hundredth, negRisk := false, feeRateBps := 0 }
    { side := "BUY", price := 1 / 200, size := 10 } none .hundredth rfl

/-! ### Order-book walk lemmas -/

theorem sumSizes_nonneg (ls : List OrderLevel) (h : ∀ l ∈ ls, 0 ≤ l.size) :
    0 ≤ sumSizes ls := by
  induction ls with
  | nil => simp [sumSizes]
  | cons x xs ih =>
      have hx := h x (List.mem_cons_self x xs)
      have hxs := ih fun l hl => h l (List.mem_cons_of_mem x hl)
      unfold sumSizes
      exact add_nonneg hx hxs

theorem walk_levels_eq_none_iff (amount : ℚ) :
    ∀ (ls : List OrderLevel) (acc : ℚ),
      (∀ l ∈ ls, 0 ≤ l.size) → acc < amount →
      (walk_levels amount acc ls = none ↔ acc + sumSizes ls < amount) := by
  intro ls
  induction ls with
  | nil =>
      intro acc _ hacc
      simp only [walk_levels, sumSizes, add_zero]
      exact ⟨fun _ => hacc, fun _ => trivial⟩
  | cons x xs ih =>
      intro acc hnn hacc
      have hnn' : ∀ l ∈ xs, 0 ≤ l.size := fun l hl => hnn l (List.mem_cons_of_mem x hl)
      have hs : 0 ≤ sumSizes xs := sumSizes_nonneg xs hnn'
      unfold walk_levels
      by_cases hle : amount ≤ acc + x.size
      · rw [if_pos hle]
        simp only [sumSizes]
        constructor
        · intro h
          exact absurd h (by simp)
        · intro h
          linarith
      · rw [if_neg hle]
        push_neg at hle
        rw [ih (acc + x.size) hnn' hle]
        simp only [sumSizes]
        constructor <;> intro h <;> linarith

theorem walk_levels_eq_some_iff (amount : ℚ) :
    ∀ (ls : List OrderLevel) (acc : ℚ) (p : ℚ),
      (∀ l ∈ ls, 0 ≤ l.size) → acc < amount →
      (walk_levels amount acc ls = some p ↔
        ∃ pre lvl post, ls = pre ++ lvl :: post ∧ p = lvl.price ∧
          acc + sumSizes pre < amount ∧ amount ≤ acc + sumSizes pre + lvl.size) := by
  intro ls
  induction ls with
  | nil =>
      intro acc p _ _
      simp only [walk_levels]
      constructor
      · intro h
        cases h
      · rintro ⟨pre, lvl, post, hsplit, -⟩
        exact absurd hsplit (by simp)
  | cons x xs ih =>
      intro acc p hnn hacc
      have hnn' : ∀ l ∈ xs, 0 ≤ l.size := fun l hl => hnn l (List.mem_cons_of_mem x hl)
      unfold walk_levels
      by_cases hle : amount ≤ acc + x.size
      · rw [if_pos hle]
        constructor
        · intro h
          injection h with h
          refine ⟨[], x, xs, rfl, h.symm, ?_, ?_⟩
          · simpa [sumSizes] using hacc
          · simpa [sumSizes] using hle
        · rintro ⟨pre, lvl, post, hsplit, hp, hlt, hge⟩
          cases pre with
          | nil =>
              simp only [List.nil_append, List.cons.injEq] at hsplit
              rw [hp, ← hsplit.1]
          | cons y pre' =>
              simp only [List.cons_append, List.cons.injEq] at hsplit
              obtain ⟨hxy, hxs⟩ := hsplit
              have hpre' : 0 ≤ sumSizes pre' := by
                refine sumSizes_nonneg pre' fun l hl => hnn' l ?_
                rw [hxs]
                exact List.mem_append_left _ hl
              simp only [sumSizes, ← hxy] at hlt
              linarith
      · rw [if_neg hle]
        push_neg at hle
        rw [ih (acc + x.size) p hnn' hle]
        constructor
        · rintro ⟨pre, lvl, post, hsplit, hp, hlt, hge⟩
          refine ⟨x :: pre, lvl, post, by simp [hsplit], hp, ?_, ?_⟩
          · simp only [sumSizes]
            linarith
          · simp only [sumSizes]
            linarith
        · rintro ⟨pre, lvl, post, hsplit, hp, hlt, hge⟩
          cases pre with
          | nil =>
              simp only [List.nil_append, List.cons.injEq] at hsplit
              simp only [sumSizes, add_zero] at hge
              rw [← hsplit.1] at hge
              linarith
          | cons y pre' =>
              simp only [List.cons_append, List.cons.injEq] at hsplit
              obtain ⟨hxy, hxs⟩ := hsplit
              refine ⟨pre', lvl, post, hxs, hp, ?_, ?_⟩
              · simp only [sumSizes, ← hxy] at hlt
                linarith
              · simp only [sumSizes, ← hxy] at hge
                linarith

theorem insertLevelAsc_perm (l : OrderLevel) (ls : List OrderLevel) :
    (insertLevelAsc l ls).Perm (l :: ls) := by
  induction ls with
  | nil => exact List.Perm.refl _
  | cons x xs ih =>
      unfold insertLevelAsc
      split
      · exact List.Perm.refl _
      · exact (ih.cons x).trans (List.Perm.swap l x xs)

theorem sortLevelsAsc_perm (ls : List OrderLevel) :
    (sortLevelsAsc ls).Perm ls := by
  induction ls with
  | nil => exact List.Perm.refl _
  | cons x xs ih =>
      unfold sortLevelsAsc
      exact (insertLevelAsc_perm x (sortLevelsAsc xs)).trans (ih.cons x)

theorem insertLevelDesc_perm (l : OrderLevel) (ls : List OrderLevel) :
    (insertLevelDesc l ls).Perm (l :: ls) := by
  induction ls with
  | nil => exact List.Perm.refl _
  | cons x xs ih =>
      unfold insertLevelDesc
      split
      · exact List.Perm.refl _
      · exact (ih.cons x).trans (List.Perm.swap l x xs)

theorem sortLevelsDesc_perm (ls : List OrderLevel) :
    (sortLevelsDesc ls).Perm ls := by
  induction ls with
  | nil => exact List.Perm.refl _
  | cons x xs ih =>
      unfold sortLevelsDesc
      exact (insertLevelDesc_perm x (sortLevelsDesc xs)).trans (ih.cons x)

theorem insertLevelAsc_pairwise (l : OrderLevel) (ls : List OrderLevel)
    (h : ls.Pairwise fun a b => a.price ≤ b.price) :
    (insertLevelAsc l ls).Pairwise fun a b => a.price ≤ b.price := by
  induction ls with
  | nil => simp [insertLevelAsc]
  | cons x xs ih =>
      rw [List.pairwise_cons] at h
      obtain ⟨hx, hxs⟩ := h
      unfold insertLevelAsc
      split
      · next hle =>
          rw [List.pairwise_cons]
          refine ⟨?_, List.pairwise_cons.mpr ⟨hx, hxs⟩⟩
          intro a ha
          rcases List.mem_cons.mp ha with rfl | ha'
          · exact hle
          · exact le_trans hle (hx a ha')
      · next hgt =>
          push_neg at hgt
          rw [List.pairwise_cons]
          refine ⟨?_, ih hxs⟩
          intro a ha
          rcases List.mem_cons.mp ((insertLevelAsc_perm l xs).mem_iff.mp ha) with rfl | h'
          · exact le_of_lt hgt
          · exact hx a h'

theorem sortLevelsAsc_pairwise (ls : List OrderLevel) :
    (sortLevelsAsc ls).Pairwise fun a b => a.price ≤ b.price := by
  induction ls with
  | nil => simp [sortLevelsAsc]
  | cons x xs ih => exact insertLevelAsc_pairwise x (sortLevelsAsc xs) ih

theorem insertLevelDesc_pairwise (l : OrderLevel) (ls : List OrderLevel)
    (h : ls.Pairwise fun a b => b.price ≤ a.price) :
    (insertLevelDesc l ls).Pairwise fun a b => b.price ≤ a.price := by
  induction ls with
  | nil => simp [insertLevelDesc]
  | cons x xs ih =>
      rw [List.pairwise_cons] at h
      obtain ⟨hx, hxs⟩ := h
      unfold insertLevelDesc
      split
      · next hle =>
          rw [List.pairwise_cons]
          refine ⟨?_, List.pairwise_cons.mpr ⟨hx, hxs⟩⟩
          intro a ha
          rcases List.mem_cons.mp ha with rfl | ha'
          · exact hle
          · exact le_trans (hx a ha') hle
      · next hgt =>
          push_neg at hgt
          rw [List.pairwise_cons]
          refine ⟨?_, ih hxs⟩
          intro a ha
          rcases List.mem_cons.mp ((insertLevelDesc_perm l xs).mem_iff.mp ha) with rfl | h'
          · exact le_of_lt hgt
          · exact hx a h'

theorem sortLevelsDesc_pairwise (ls : List OrderLevel) :
    (sortLevelsDesc ls).Pairwise fun a b => b.price ≤ a.price := by
  induction ls with
  | nil => simp [sortLevelsDesc]
  | cons x xs ih => exact insertLevelDesc_pairwise x (sortLevelsDesc xs) ih

theorem sumSizes_perm {ls ls' : List OrderLevel} (h : ls.Perm ls') :
    sumSizes ls = sumSizes ls' := by
  induction h with
  | nil => rfl
  | cons x _ ih => simp only [sumSizes, ih]
  | swap x y l => simp only [sumSizes]; ring
  | trans _ _ ih1 ih2 => exact ih1.trans ih2

theorem calculate_market_price_buy_branch (b : OrderBookSummaryM) (amount : ℚ)
    (orderType : OrderType) :
    calculate_market_price (some b) "BUY" amount orderType =
      (match b.asks with
       | none => .error .liquidity
       | some asks => calculate_buy_market_price asks amount orderType) := rfl

theorem calculate_market_price_sell_branch (b : OrderBookSummaryM) (amount : ℚ)
    (orderType : OrderType) :
    calculate_market_price (some b) "SELL" amount orderType =
      (match b.bids with
       | none => .error .liquidity
       | some bids => calculate_sell_market_price bids amount orderType) := by
  unfold calculate_market_price
  norm_num
  intro h
  exact absurd h (by decide)

theorem calculate_buy_liquidity_iff (asks : List OrderLevel) (amount : ℚ)
    (orderType : OrderType) (hnn : ∀ l ∈ asks, 0 ≤ l.size) (hamt : 0 < amount) :
    calculate_buy_market_price asks amount orderType = .error .liquidity ↔
      sumSizes asks < amount := by
  have hperm := sortLevelsAsc_perm asks
  have hnnS : ∀ l ∈ sortLevelsAsc asks, 0 ≤ l.size :=
    fun l hl => hnn l (hperm.mem_iff.mp hl)
  have hiff := walk_levels_eq_none_iff amount (sortLevelsAsc asks) 0 hnnS hamt
  rw [zero_add, sumSizes_perm hperm] at hiff
  unfold calculate_buy_market_price
  cases hw : walk_levels amount 0 (sortLevelsAsc asks) with
  | none =>
      exact ⟨fun _ => hiff.mp hw, fun _ => rfl⟩
  | some q =>
      constructor
      · intro hcontra
        cases hcontra
      · intro hlt
        have := hiff.mpr hlt
        rw [hw] at this
        cases this

theorem calculate_buy_ok_iff (asks : List OrderLevel) (amount p : ℚ)
    (orderType : OrderType) (hnn : ∀ l ∈ asks, 0 ≤ l.size) (hamt : 0 < amount) :
    calculate_buy_market_price asks amount orderType = .ok p ↔
      ∃ pre lvl post, sortLevelsAsc asks = pre ++ lvl :: post ∧ p = lvl.price ∧
        sumSizes pre < amount ∧ amount ≤ sumSizes pre + lvl.size := by
  have hperm := sortLevelsAsc_perm asks
  have hnnS : ∀ l ∈ sortLevelsAsc asks, 0 ≤ l.size :=
    fun l hl => hnn l (hperm.mem_iff.mp hl)
  have hiff := walk_levels_eq_some_iff amount (sortLevelsAsc asks) 0 p hnnS hamt
  simp only [zero_add] at hiff
  unfold calculate_buy_market_price
  cases hw : walk_levels amount 0 (sortLevelsAsc asks) with
  | none =>
      rw [hw] at hiff
      constructor
      · intro hcontra
        cases hcontra
      · intro hex
        cases hiff.mpr hex
  | some q =>
      rw [hw] at hiff
      constructor
      · intro hok
        injection hok with hq
        subst hq
        exact hiff.mp rfl
      · intro hex
        have := hiff.mpr hex
        injection this with hq
        rw [hq]

theorem calculate_sell_liquidity_iff (bids : List OrderLevel) (amount : ℚ)
    (orderType : OrderType) (hnn : ∀ l ∈ bids, 0 ≤ l.size) (hamt : 0 < amount) :
    calculate_sell_market_price bids amount orderType = .error .liquidity ↔
      sumSizes bids < amount := by
  have hperm := sortLevelsDesc_perm bids
  have hnnS : ∀ l ∈ sortLevelsDesc bids, 0 ≤ l.size :=
    fun l hl => hnn l (hperm.mem_iff.mp hl)
  have hiff := walk_levels_eq_none_iff amount (sortLevelsDesc bids) 0 hnnS hamt
  rw [zero_add, sumSizes_perm hperm] at hiff
  unfold calculate_sell_market_price
  cases hw : walk_levels amount 0 (sortLevelsDesc bids) with
  | none =>
      exact ⟨fun _ => hiff.mp hw, fun _ => rfl⟩
  | some q =>
      constructor
      · intro hcontra
        cases hcontra
      · intro hlt
        have := hiff.mpr hlt
        rw [hw] at this
        cases this

theorem calculate_sell_ok_iff (bids : List OrderLevel) (amount p : ℚ)
    (orderType : OrderType) (hnn : ∀ l ∈ bids, 0 ≤ l.size) (hamt : 0 < amount) :
    calculate_sell_market_price bids amount orderType = .ok p ↔
      ∃ pre lvl post, sortLevelsDesc bids = pre ++ lvl :: post ∧ p = lvl.price ∧
        sumSizes pre < amount ∧ amount ≤ sumSizes pre + lvl.size := by
  have hperm := sortLevelsDesc_perm bids
  have hnnS : ∀ l ∈ sortLevelsDesc bids, 0 ≤ l.size :=
    fun l hl => hnn l (hperm.mem_iff.mp hl)
  have hiff := walk_levels_eq_some_iff amount (sortLevelsDesc bids) 0 p hnnS hamt
  simp only [zero_add] at hiff
  unfold calculate_sell_market_price
  cases hw : walk_levels amount 0 (sortLevelsDesc bids) with
  | none =>
      rw [hw] at hiff
      constructor
      · intro hcontra
        cases hcontra
      · intro hex
        cases hiff.mpr hex
  | some q =>
      rw [hw] at hiff
      constructor
      · intro hok
        injection hok with hq
        subst hq
        exact hiff.mp rfl
      · intro hex
        have := hiff.mpr hex
        injection this with hq
        rw [hq]

/-- Claim C2: market price discovery fails with `MissingOrderbook` when no
snapshot is available; for a positive amount against a book of nonnegative
sizes, a BUY (consuming asks) and a SELL (consuming bids) fail with
`InsufficientLiquidity` exactly when the amount exceeds the total depth on
the relevant side, and otherwise return the price of the last level needed
to reach cumulative size ≥ amount, walking the levels in
favorable-to-the-taker order (ascending for asks, descending for bids — the
walked list is sorted and is a permutation of the side); on the spec's
example asks `[(0.40, 10), (0.41, 20)]` a BUY of 25 yields 0.41 and a BUY of
31 fails. -/
theorem market_price_discovery (amount : ℚ) (orderType : OrderType)
    (b : OrderBookSummaryM) (asks bids : List OrderLevel)
    (hamt : 0 < amount)
    (hasks : ∀ l ∈ asks, 0 ≤ l.size) (hbids : ∀ l ∈ bids, 0 ≤ l.size) :
    (∀ side, calculate_market_price none side amount orderType =
      .error .missingOrderbook) ∧
    (b.asks = some asks →
      (calculate_market_price (some b) "BUY" amount orderType = .error .liquidity ↔
        sumSizes asks < amount)) ∧
    (b.asks = some asks → ∀ p,
      (calculate_market_price (some b) "BUY" amount orderType = .ok p ↔
        ∃ pre lvl post, sortLevelsAsc asks = pre ++ lvl :: post ∧ p = lvl.price ∧
          sumSizes pre < amount ∧ amount ≤ sumSizes pre + lvl.size)) ∧
    (sortLevelsAsc asks).Pairwise (fun x y => x.price ≤ y.price) ∧
    (sortLevelsAsc asks).Perm asks ∧
    (b.bids = some bids →
      (calculate_market_price (some b) "SELL" amount orderType = .error .liquidity ↔
        sumSizes bids < amount)) ∧
    (b.bids = some bids → ∀ p,
      (calculate_market_price (some b) "SELL" amount orderType = .ok p ↔
        ∃ pre lvl post, sortLevelsDesc bids = pre ++ lvl :: post ∧ p = lvl.price ∧
          sumSizes pre < amount ∧ amount ≤ sumSizes pre + lvl.size)) ∧
    (sortLevelsDesc bids).Pairwise (fun x y => y.price ≤ x.price) ∧
    (sortLevelsDesc bids).Perm bids ∧
    calculate_market_price (some exBook) "BUY" 25 OrderType.FOK = .ok (41 / 100) ∧
    calculate_market_price (some exBook) "BUY" 31 OrderType.FOK =
      .error .liquidity := by
  refine ⟨fun _ => rfl, ?_, ?_, sortLevelsAsc_pairwise asks, sortLevelsAsc_perm asks,
    ?_, ?_, sortLevelsDesc_pairwise bids, sortLevelsDesc_perm bids, ?_, ?_⟩
  · intro hb
    rw [calculate_market_price_buy_branch, hb]
    exact calculate_buy_liquidity_iff asks amount orderType hasks hamt
  · intro hb p
    rw [calculate_market_price_buy_branch, hb]
    exact calculate_buy_ok_iff asks amount p orderType hasks hamt
  · intro hb
    rw [calculate_market_price_sell_branch, hb]
    exact calculate_sell_liquidity_iff bids amount orderType hbids hamt
  · intro hb p
    rw [calculate_market_price_sell_branch, hb]
    exact calculate_sell_ok_iff bids amount p orderType hbids hamt
  · norm_num [calculate_market_price, exBook, exAsks, calculate_buy_market_price,
      sortLevelsAsc, insertLevelAsc, walk_levels]
  · norm_num [calculate_market_price, exBook, exAsks, calculate_buy_market_price,
      sortLevelsAsc, insertLevelAsc, walk_levels]

/-- Witness for C2 at the spec's example book. -/
theorem market_price_discovery_witness :
    (∀ side, calculate_market_price none side 25 OrderType.FOK =
      .error .missingOrderbook) ∧
    (exBook.asks = some exAsks →
      (calculate_market_price (some exBook) "BUY" 25 OrderType.FOK =
          .error .liquidity ↔ sumSizes exAsks < 25)) ∧
    (exBook.asks = some exAsks → ∀ p,
      (calculate_market_price (some exBook) "BUY" 25 OrderType.FOK = .ok p ↔
        ∃ pre lvl post, sortLevelsAsc exAsks = pre ++ lvl :: post ∧ p = lvl.price ∧
          sumSizes pre < 25 ∧ 25 ≤ sumSizes pre + lvl.size)) ∧
    (sortLevelsAsc exAsks).Pairwise (fun x y => x.price ≤ y.price) ∧
    (sortLevelsAsc exAsks).Perm exAsks ∧
    (exBook.bids = some [] →
      (calculate_market_price (some exBook) "SELL" 25 OrderType.FOK =
          .error .liquidity ↔ sumSizes [] < 25)) ∧
    (exBook.bids = some [] → ∀ p,
      (calculate_market_price (some exBook) "SELL" 25 OrderType.FOK = .ok p ↔
        ∃ pre lvl post, sortLevelsDesc [] = pre ++ lvl :: post ∧ p = lvl.price ∧
          sumSizes pre < 25 ∧ 25 ≤ sumSizes pre + lvl.size)) ∧
    (sortLevelsDesc []).Pairwise (fun x y => y.price ≤ x.price) ∧
    (sortLevelsDesc ([] : List OrderLevel)).Perm [] ∧
    calculate_market_price (some exBook) "BUY" 25 OrderType.FOK = .ok (41 / 100) ∧
    calculate_market_price (some exBook) "BUY" 31 OrderType.FOK =
      .error .liquidity :=
  market_price_discovery 25 OrderType.FOK exBook exAsks []
    (by norm_num) (by decide) (by decide)

/-- Claim C5: market-order construction runs its steps in the fixed order
resolve tick size → (derive price from the book, only when no explicit
positive price) → validate price → resolve neg-risk → resolve fee rate →
delegate to the signer: the performed trace is always a prefix of that
sequence, the signer step is reached exactly when construction succeeds, and
on any raised validation error the signer step is absent and no submission
action happens in `create_and_post_market_order`. -/
theorem create_market_order_step_order (meta : MarketMeta)
    (book : Option OrderBookSummaryM) (args : MarketOrderArgs)
    (options : Option PartialCreateOrderOptions)
    (outcome : TransportOutcome OrderPostResponseM) :
    (∃ n, (create_market_order meta book args options).2 =
      (fullBuildTrace args.price).take n) ∧
    ((∃ o, (create_market_order meta book args options).1 = .ok o) ↔
      BuildStep.sign ∈ (create_market_order meta book args options).2) ∧
    (∀ e, (create_market_order meta book args options).1 = .error e →
      BuildStep.sign ∉ (create_market_order meta book args options).2 ∧
      OrderAction.postOrder ∉
        (create_and_post_market_order meta book args options outcome).2) := by
  unfold create_and_post_market_order
  unfold create_market_order
  unfold fullBuildTrace
  cases hd : marketPriceNeeded args.price <;>
    simp only [hd, if_true, if_false, Bool.false_eq_true, List.nil_append,
      List.cons_append, List.append_nil] <;> split
  · refine ⟨⟨1, rfl⟩, by simp, ?_⟩
    intro e' he'
    exact ⟨by simp, by simp⟩
  · split
    · refine ⟨⟨2, rfl⟩, by simp, ?_⟩
      intro e' he'
      exact ⟨by simp, by simp⟩
    · split
      · refine ⟨⟨4, rfl⟩, by simp, ?_⟩
        intro e' he'
        exact ⟨by simp, by simp⟩
      · refine ⟨⟨5, rfl⟩, by simp, ?_⟩
        intro e' he'
        cases he'
  · refine ⟨⟨1, rfl⟩, by simp, ?_⟩
    intro e' he'
    exact ⟨by simp, by simp⟩
  · split
    · refine ⟨⟨2, rfl⟩, by simp, ?_⟩
      intro e' he'
      exact ⟨by simp, by simp⟩
    · split
      · refine ⟨⟨3, rfl⟩, by simp, ?_⟩
        intro e' he'
        exact ⟨by simp, by simp⟩
      · split
        · refine ⟨⟨5, rfl⟩, by simp, ?_⟩
          intro e' he'
          exact ⟨by simp, by simp⟩
        · refine ⟨⟨6, rfl⟩, by simp, ?_⟩
          intro e' he'
          cases he'

theorem batchWarnings_mem (items : List OrderPostResponseM) :
    ∀ (start i : ℕ) (m : String) (hi : i < items.length),
      (items.get ⟨i, hi⟩).errorMsg = some m →
      LogEntry.orderIndexError (start + i) m ∈ batchWarnings start items := by
  induction items with
  | nil =>
      intro start i m hi
      exact absurd hi (by simp)
  | cons r rs ih =>
      intro start i m hi hmsg
      unfold batchWarnings
      cases i with
      | zero =>
          simp only [List.get] at hmsg
          rw [List.mem_append]
          left
          rw [hmsg]
          simp
      | succ j =>
          rw [List.mem_append]
          right
          have hj : j < rs.length := by
            simpa using hi
          have := ih (start + 1) j m hj (by simpa using hmsg)
          have harith : start + 1 + j = start + (j + 1) := by omega
          rw [harith] at this
          exact this

/-- Claim C6: when the transport call of a batch submission succeeds and the
server answers one outcome per submitted order, `post_orders` returns the
full index-aligned outcome array (in order, one per submitted order); an
outcome carrying an error message contributes a logged diagnostic but does
not abort the remaining entries — concretely, a batch of 3 whose index 1 is
rejected still yields 3 results with indices 0 and 2 successful and exactly
one warning, for index 1. -/
theorem post_orders_partial_failure (args : List PostOrdersArgsM)
    (items : List OrderPostResponseM) (h : items.length = args.length) :
    (post_orders args (.success items)).1 = .ok (some items) ∧
    (∀ rs, (post_orders args (.success items)).1 = .ok (some rs) →
      rs.length = args.length) ∧
    (∀ (i : ℕ) (m : String) (hi : i < items.length),
      (items.get ⟨i, hi⟩).errorMsg = some m →
      LogEntry.orderIndexError i m ∈ (post_orders args (.success items)).2) ∧
    (post_orders exBatchArgs (.success exBatchItems)).1 = .ok (some exBatchItems) ∧
    exBatchItems.length = exBatchArgs.length ∧
    (exBatchItems.get ⟨0, by norm_num [exBatchItems]⟩).success = true ∧
    (exBatchItems.get ⟨1, by norm_num [exBatchItems]⟩).errorMsg = some "bad price" ∧
    (exBatchItems.get ⟨2, by norm_num [exBatchItems]⟩).success = true ∧
    (post_orders exBatchArgs (.success exBatchItems)).2 =
      [.orderIndexError 1 "bad price"] := by
  refine ⟨rfl, ?_, ?_, rfl, rfl, rfl, rfl, rfl, ?_⟩
  · intro rs hrs
    injection hrs with h2
    injection h2 with h3
    rw [← h3, h]
  · intro i m hi hmsg
    have := batchWarnings_mem items 0 i m hi hmsg
    simpa using this
  · show batchWarnings 0 exBatchItems = [.orderIndexError 1 "bad price"]
    norm_num [batchWarnings, exBatchItems]

/-- Witness for C6 at the concrete 3-order batch. -/
theorem post_orders_partial_failure_witness :
    (post_orders exBatchArgs (.success exBatchItems)).1 = .ok (some exBatchItems) ∧
    (∀ rs, (post_orders exBatchArgs (.success exBatchItems)).1 = .ok (some rs) →
      rs.length = exBatchArgs.length) ∧
    (∀ (i : ℕ) (m : String) (hi : i < exBatchItems.length),
      (exBatchItems.get ⟨i, hi⟩).errorMsg = some m →
      LogEntry.orderIndexError i m ∈
        (post_orders exBatchArgs (.success exBatchItems)).2) ∧
    (post_orders exBatchArgs (.success exBatchItems)).1 = .ok (some exBatchItems) ∧
    exBatchItems.length = exBatchArgs.length ∧
    (exBatchItems.get ⟨0, by norm_num [exBatchItems]⟩).success = true ∧
    (exBatchItems.get ⟨1, by norm_num [exBatchItems]⟩).errorMsg = some "bad price" ∧
    (exBatchItems.get ⟨2, by norm_num [exBatchItems]⟩).success = true ∧
    (post_orders exBatchArgs (.success exBatchItems)).2 =
      [.orderIndexError 1 "bad price"] :=
  post_orders_partial_failure exBatchArgs exBatchItems rfl

/-- Claim C7 counterexample: a transport-level failure of the HTTP call
itself (a connection error, not an error-status response) is not an
`httpx.HTTPStatusError`, so `post_order`'s handler does not catch it: the
exception propagates to the caller instead of becoming a `None` result, and
no diagnostic is logged. -/
theorem post_order_transport_counterexample :
    (post_order .transportFailure).1 = .error .transportFailure ∧
    (post_order .transportFailure).1 ≠ .ok none ∧
    (post_order .transportFailure).2 = [] :=
  ⟨rfl, fun h => Except.noConfusion h, rfl⟩

/-- Claim C7 (amended: only an error-status response is caught): an HTTP
client/server error response during single or batch submission is caught and
converted into a `None` result plus a logged diagnostic, and a success
response is returned as data; but a transport-level exception from the call
itself is not caught and propagates to the caller in both `post_order` and
`post_orders`. -/
theorem post_submission_error_handling (s : ℕ) (r : OrderPostResponseM)
    (args : List PostOrdersArgsM) :
    post_order (.statusError s) = (.ok none, [.clientError s]) ∧
    post_order (.success r) = (.ok (some r), []) ∧
    (post_orders args (.statusError s)).1 = .ok none ∧
    (post_orders args (.statusError s)).2 = [.clientError s] ∧
    (post_order .transportFailure).1 = .error .transportFailure ∧
    (post_orders args .transportFailure).1 = .error .transportFailure :=
  ⟨rfl, rfl, rfl, rfl, rfl, rfl⟩

/-- Witness for C7's amended theorem at status 400 and the concrete batch. -/
theorem post_submission_error_handling_witness :
    post_order (.statusError 400) = (.ok none, [.clientError 400]) ∧
    post_order (.success { success := true }) =
      (.ok (some { success := true }), []) ∧
    (post_orders exBatchArgs (.statusError 400)).1 = .ok none ∧
    (post_orders exBatchArgs (.statusError 400)).2 = [.clientError 400] ∧
    (post_order .transportFailure).1 = .error .transportFailure ∧
    (post_orders exBatchArgs .transportFailure).1 = .error .transportFailure :=
  post_submission_error_handling 400 { success := true } exBatchArgs

/-- Claim C8 counterexample: for the subscription list `[exClobUserSub]`
(topic `clob_user`) with no credentials, the sync `live_data_socket` raises
`AuthenticationRequired` only on the connection's `ready` event: its action
trace already contains the connect, so the failure does not precede every
network attempt as the claim states. -/
theorem live_data_socket_counterexample :
    needs_auth [exClobUserSub] = true ∧
    live_data_socket [exClobUserSub] none =
      ([.connect], some .authRequired) ∧
    (live_data_socket [exClobUserSub] none).1 ≠ [] := by
  have h : needs_auth [exClobUserSub] = true := by
    norm_num [needs_auth, exClobUserSub]
  have h2 : live_data_socket [exClobUserSub] none =
      ([.connect], some .authRequired) := by
    unfold live_data_socket
    rw [h]
    rfl
  refine ⟨h, h2, ?_⟩
  rw [h2]
  simp

/-- Claim C8 (amended: the fail-fast point differs per variant): with a
`clob_user` subscription and no credentials, the async `alive_data_stream`
fails with `AuthenticationRequired` before any network action, while the
sync `live_data_socket` fails after the connect but before the subscribe
handshake is sent; with credentials supplied, both variants send the
subscribe handshake carrying the subscription list with `clob_auth`
injected into exactly the entries whose topic is `"clob_user"`, all other
entries and fields unchanged; without any `clob_user` entry the list is
sent as is. -/
theorem live_data_auth_and_injection (subs : List SubscriptionM)
    (c : ApiCredsM) (sub : SubscriptionM) :
    (needs_auth subs = true →
      alive_data_stream subs none = ([], some .authRequired)) ∧
    (needs_auth subs = true →
      live_data_socket subs none = ([.connect], some .authRequired)) ∧
    (needs_auth subs = true →
      live_data_socket subs (some c) =
        ([.connect, .sendSubscribe (subs.map (inject_creds c))], none) ∧
      alive_data_stream subs (some c) =
        ([.connect, .sendSubscribe (subs.map (inject_creds c))], none)) ∧
    (needs_auth subs = false →
      live_data_socket subs none = ([.connect, .sendSubscribe subs], none) ∧
      alive_data_stream subs none = ([.connect, .sendSubscribe subs], none)) ∧
    ((inject_creds c sub).topic = sub.topic ∧
     (inject_creds c sub).fields = sub.fields ∧
     (inject_creds c sub).clobAuth =
       (if sub.topic = "clob_user" then some c else sub.clobAuth)) := by
  refine ⟨?_, ?_, ?_, ?_, ?_⟩
  · intro h
    unfold alive_data_stream
    rw [h]
    rfl
  · intro h
    unfold live_data_socket
    rw [h]
    rfl
  · intro h
    constructor
    · unfold live_data_socket
      rw [h]
      rfl
    · unfold alive_data_stream
      rw [h]
      rfl
  · intro h
    constructor
    · unfold live_data_socket
      rw [h]
      simp
    · unfold alive_data_stream
      rw [h]
      simp
  · unfold inject_creds
    by_cases htop : sub.topic = "clob_user"
    · rw [if_pos htop, if_pos htop]
      exact ⟨rfl, rfl, rfl⟩
    · rw [if_neg htop, if_neg htop]
      exact ⟨rfl, rfl, rfl⟩

/-! ### Pagination lemmas -/

theorem get_all_events_go_eq_drop {α : Type} (items : List α) :
    ∀ (fuel offset : ℕ), items.length ≤ offset + 500 * fuel →
      get_all_events_go items 500 fuel offset = items.drop offset := by
  intro fuel
  induction fuel with
  | zero =>
      intro offset h
      rw [mul_zero, add_zero] at h
      unfold get_all_events_go
      exact (List.drop_eq_nil_of_le h).symm
  | succ n ih =>
      intro offset h
      unfold get_all_events_go eventsPage
      by_cases hlen : ((items.drop offset).take 500).length < 500
      · rw [if_pos hlen]
        rw [List.length_take] at hlen
        have hshort : (items.drop offset).length ≤ 500 := by omega
        exact List.take_of_length_le hshort
      · rw [if_neg hlen]
        have hrec := ih (offset + 500) (by omega)
        rw [hrec]
        have hdd : items.drop (offset + 500) = (items.drop offset).drop 500 := by
          rw [List.drop_drop]
        rw [hdd, List.take_append_drop]

theorem fetch_pages_join {α : Type} (items : List α) (limit : ℕ) :
    ∀ (fuel offset : ℕ),
      get_all_events_go items limit fuel offset =
        ((fetch_pages items limit fuel offset).map Prod.snd).flatten := by
  intro fuel
  induction fuel with
  | zero =>
      intro offset
      rfl
  | succ n ih =>
      intro offset
      unfold get_all_events_go fetch_pages
      by_cases hlen : (eventsPage items limit offset).length < 500
      · rw [if_pos hlen, if_pos hlen]
        simp
      · rw [if_neg hlen, if_neg hlen]
        rw [ih (offset + 500)]
        simp

theorem fetch_pages_offset_le {α : Type} (items : List α) (limit : ℕ) :
    ∀ (fuel offset o : ℕ),
      o ∈ (fetch_pages items limit fuel offset).map Prod.fst → offset ≤ o := by
  intro fuel
  induction fuel with
  | zero =>
      intro offset o h
      exact absurd h (by simp [fetch_pages])
  | succ n ih =>
      intro offset o h
      unfold fetch_pages at h
      by_cases hlen : (eventsPage items limit offset).length < 500
      · rw [if_pos hlen] at h
        simp at h
        omega
      · rw [if_neg hlen] at h
        rw [List.map_cons, List.mem_cons] at h
        rcases h with rfl | h
        · exact le_refl _
        · have := ih (offset + 500) o h
          omega

theorem fetch_pages_offsets_sorted {α : Type} (items : List α) (limit : ℕ) :
    ∀ (fuel offset : ℕ),
      ((fetch_pages items limit fuel offset).map Prod.fst).Pairwise (· < ·) := by
  intro fuel
  induction fuel with
  | zero =>
      intro offset
      simp [fetch_pages]
  | succ n ih =>
      intro offset
      unfold fetch_pages
      by_cases hlen : (eventsPage items limit offset).length < 500
      · rw [if_pos hlen]
        simp
      · rw [if_neg hlen]
        rw [List.map_cons, List.pairwise_cons]
        refine ⟨?_, ih (offset + 500)⟩
        intro o ho
        have := fetch_pages_offset_le items limit n (offset + 500) o ho
        omega

/-- Claim C9 counterexample: `get_all_events` forwards the caller's kwargs
(including `limit`) to `get_events` but its stop test compares the page
length against the hardcoded constant 500, not the requested page size. For
a server holding `[0, 1]` and a requested page size of 1, the first page is
`[0]` of length 1, which is not below the requested size, yet the loop stops
and returns `[0]`, missing the rest of the items. -/
theorem get_all_events_counterexample :
    (eventsPage [0, 1] 1 0).length = 1 ∧
    ¬(eventsPage [0, 1] 1 0).length < 1 ∧
    get_all_events [0, 1] 1 = [0] ∧
    get_all_events [0, 1] 1 ≠ [0, 1] := by
  refine ⟨?_, ?_, ?_, ?_⟩
  · norm_num [eventsPage]
  · norm_num [eventsPage]
  · norm_num [get_all_events, get_all_events_go, eventsPage]
  · norm_num [get_all_events, get_all_events_go, eventsPage]

/-- Claim C9 (amended: the short-page cutoff is the constant 500, which
equals the requested page size only under the default limit of 500): the
fetch-all loop requests offsets 0, 500, 1000, … (strictly increasing, so no
page is re-fetched), returns the concatenation of the fetched pages in
request order, stops exactly when a fetched page's length is below 500, and
with the default limit of 500 against an honest offset/limit server it
returns exactly the server's items in server order. -/
theorem get_all_events_pagination {α : Type} (items : List α) (limit : ℕ) :
    get_all_events items 500 = items ∧
    (∀ fuel offset, get_all_events_go items limit fuel offset =
      ((fetch_pages items limit fuel offset).map Prod.snd).flatten) ∧
    (∀ fuel offset,
      ((fetch_pages items limit fuel offset).map Prod.fst).Pairwise (· < ·)) ∧
    (∀ fuel offset, (eventsPage items limit offset).length < 500 →
      fetch_pages items limit (fuel + 1) offset =
        [(offset, eventsPage items limit offset)]) ∧
    (∀ fuel offset, ¬(eventsPage items limit offset).length < 500 →
      fetch_pages items limit (fuel + 1) offset =
        (offset, eventsPage items limit offset) ::
          fetch_pages items limit fuel (offset + 500)) := by
  refine ⟨?_, fetch_pages_join items limit, fetch_pages_offsets_sorted items limit,
    ?_, ?_⟩
  · rw [get_all_events, get_all_events_go_eq_drop items (items.length + 1) 0 (by omega)]
    exact List.drop_zero items
  · intro fuel offset h
    unfold fetch_pages
    rw [if_pos h]
  · intro fuel offset h
    unfold fetch_pages
    rw [if_neg h]
    congr 1
    cases fuel <;> rfl

/-- Claim C10: for an inbound market-channel frame whose JSON payload is an
array, the async market stream yields one value per array element, each
element dispatched individually through `parse_market_event` (in particular
nothing is yielded for the array as a whole); a frame that is not valid JSON
yields the raw wrapper instead of raising; and the dispatch maps the `book`
discriminant to the typed book event while unrecognized discriminants pass
the message through. -/
theorem amarket_stream_array_frames (f : WsFrame) (elems : List JsonV) :
    (f.parsed = some (.arr elems) →
      amarket_frame_events f true =
        elems.map (fun item => .typed (parse_market_event item)) ∧
      (amarket_frame_events f true).length = elems.length ∧
      ∀ y ∈ amarket_frame_events f true,
        ∃ item ∈ elems, y = .typed (parse_market_event item)) ∧
    (f.parsed = none → ∀ parse, amarket_frame_events f parse = [.raw f.text]) ∧
    (∀ j, jsonGet j "event_type" = some (.str "book") →
      parse_market_event j = .book j) ∧
    (∀ j s, jsonGet j "event_type" = some (.str s) →
      s ≠ "book" → s ≠ "price_change" → s ≠ "tick_size_change" →
      s ≠ "last_trade_price" → parse_market_event j = .passthrough j) := by
  refine ⟨?_, ?_, ?_, ?_⟩
  · intro h
    have he : amarket_frame_events f true =
        elems.map (fun item => .typed (parse_market_event item)) := by
      unfold amarket_frame_events
      rw [h]
      simp
    refine ⟨he, by rw [he, List.length_map], ?_⟩
    intro y hy
    rw [he, List.mem_map] at hy
    obtain ⟨item, hitem, hmap⟩ := hy
    exact ⟨item, hitem, hmap.symm⟩
  · intro h parse
    unfold amarket_frame_events
    rw [h]
  · intro j hj
    unfold parse_market_event
    rw [hj]
    rfl
  · intro j s hj h1 h2 h3 h4
    unfold parse_market_event
    rw [hj]
    split
    · next heq =>
        simp only [Option.some.injEq, JsonV.str.injEq] at heq
        exact absurd heq h1
    · next heq =>
        simp only [Option.some.injEq, JsonV.str.injEq] at heq
        exact absurd heq h2
    · next heq =>
        simp only [Option.some.injEq, JsonV.str.injEq] at heq
        exact absurd heq h3
    · next heq =>
        simp only [Option.some.injEq, JsonV.str.injEq] at heq
        exact absurd heq h4
    · rfl

/-- Witness for C10 at the concrete two-element array frame. -/
theorem amarket_stream_array_frames_witness :
    (exArrFrame.parsed = some (.arr [exBookMsg, exPriceMsg]) →
      amarket_frame_events exArrFrame true =
        [exBookMsg, exPriceMsg].map (fun item => .typed (parse_market_event item)) ∧
      (amarket_frame_events exArrFrame true).length =
        [exBookMsg, exPriceMsg].length ∧
      ∀ y ∈ amarket_frame_events exArrFrame true,
        ∃ item ∈ [exBookMsg, exPriceMsg],
          y = .typed (parse_market_event item)) ∧
    (exArrFrame.parsed = none → ∀ parse,
      amarket_frame_events exArrFrame parse = [.raw exArrFrame.text]) ∧
    (∀ j, jsonGet j "event_type" = some (.str "book") →
      parse_market_event j = .book j) ∧
    (∀ j s, jsonGet j "event_type" = some (.str s) →
      s ≠ "book" → s ≠ "price_change" → s ≠ "tick_size_change" →
      s ≠ "last_trade_price" → parse_market_event j = .passthrough j) :=
  amarket_stream_array_frames exArrFrame [exBookMsg, exPriceMsg]

end Polymarket
